import Mathlib

/-!
Shallow embedding of the file-audit monitor repository
(`backup_manager.py`, `log_manager.py`, `file_monitor.py`).

Conventions of the embedding:
* Wall-clock instants (`time.time()`, file mtimes) are modelled as `Int`
  seconds; calendar days (`date.today()`) as `Nat`.
* Python dicts (insertion ordered) are modelled as association lists with
  update-in-place-or-append semantics (`setA`).
* Filesystem side effects are made explicit: a per-stem backup directory is a
  `List BFile` (name and modification time, as `os.listdir` + `getmtime` see
  it); written summary/log files are returned as output values.
* Fallible I/O (`shutil.copy2`, `open(...).writelines`) is driven by explicit
  boolean oracles (`srcOk`, `sumOk`, `logOk`): the Python code catches every
  exception locally, so each operation is a total function here.
* `LogManager.log_entries` and `LogManager.regDays` carry a ghost calendar-day
  tag recording the day an entry/count was added; the tag is never examined by
  any operation (the code stores plain strings / plain integers), it only lets
  specifications talk about which day a piece of in-memory data came from.
-/

namespace Audit

/-! ### `os.path` helpers -/

/-- A path separator as `ntpath`/`posixpath` treat it on the slash-style
paths this repository uses. -/
def isSep (c : Char) : Bool := c = '/' || c = '\\'

/-- `os.path.basename`: the part of the path after the last separator. -/
def basename (p : String) : String :=
  String.mk (p.data.foldl (fun acc c => if isSep c then [] else acc ++ [c]) [])

/-- `os.path.splitext`: split at the last dot of the name, except that a name
whose characters before that dot are all dots (e.g. `.bashrc`) has no
extension. -/
def splitext (s : String) : String × String :=
  let cs := s.data
  let rext := cs.reverse.takeWhile (fun c => c ≠ '.')
  if rext.length = cs.length then (s, "")
  else
    let rootLen := cs.length - rext.length - 1
    let root := cs.take rootLen
    if root.all (fun c => c = '.') then (s, "")
    else (String.mk root, String.mk (cs.drop rootLen))

/-- The file stem used to key backup directories and per-file counts:
`name_only, _ = os.path.splitext(os.path.basename(filepath))`. -/
def stemOf (filepath : String) : String := (splitext (basename filepath)).1

/-- The extension part of `os.path.splitext(os.path.basename(filepath))`. -/
def extOf (filepath : String) : String := (splitext (basename filepath)).2

/-! ### Insertion-ordered dictionaries (Python `dict`) -/

/-- `d.get(k)` on an insertion-ordered dictionary. -/
def getA {α : Type} : List (String × α) → String → Option α
  | [], _ => none
  | (a, v) :: t, k => if a = k then some v else getA t k

/-- `d[k] = v` on an insertion-ordered dictionary: update in place if the key
exists, append otherwise. -/
def setA {α : Type} : List (String × α) → String → α → List (String × α)
  | [], k, v => [(k, v)]
  | (a, w) :: t, k, v => if a = k then (a, v) :: t else (a, w) :: setA t k v

/-- `d[k] = d.get(k, 0) + 1`. -/
def bump (counts : List (String × Nat)) (k : String) : List (String × Nat) :=
  setA counts k ((getA counts k).getD 0 + 1)

/-! ### Backup Store (`backup_manager.py`) -/

/-- A file in a per-stem backup directory, as `os.listdir` plus
`os.path.getmtime` observe it. -/
structure BFile where
  name : String
  mtime : Int
deriving DecidableEq

/-- The comparison key of `cleanup_old_backups`: order by modification time. -/
def mtimeLe (a b : BFile) : Prop := a.mtime ≤ b.mtime

instance : DecidableRel mtimeLe := fun a b => Int.decLe a.mtime b.mtime

/-- `sorted(os.listdir(...), key=os.path.getmtime)`: Python's `sorted` is a
stable sort, and a stable sort for a total preorder is unique, so any stable
sort models it exactly; `List.insertionSort` is stable. -/
def listByMtime (dir : List BFile) : List BFile := dir.insertionSort mtimeLe

/-- `BackupManager.cleanup_old_backups`: sort the directory by modification
time ascending and pop from the front while more than `max_backups` files
remain. -/
def cleanup_old_backups (max_backups : Nat) (dir : List BFile) : List BFile :=
  let backups := listByMtime dir
  backups.drop (backups.length - max_backups)

/-- `shutil.copy2 src dst` as seen by the destination directory: overwrite the
entry if a file of that name exists, append it otherwise; the copy preserves
the source's modification time. -/
def fsWrite (dir : List BFile) (name : String) (mtime : Int) : List BFile :=
  if (dir.map BFile.name).contains name then
    dir.map (fun f => if f.name = name then { f with mtime := mtime } else f)
  else dir ++ [⟨name, mtime⟩]

/-- The backup filename `f"{name_only}_{timestamp}_{user}{ext}"`. -/
def backupFilename (name_only ts user ext : String) : String :=
  name_only ++ "_" ++ ts ++ "_" ++ user ++ ext

/-- The state of a `BackupManager`: its root, the per-file cap, and the
contents of each per-stem backup directory. -/
structure BackupManager where
  backup_dir : String
  max_backups : Nat
  dirs : List (String × List BFile)
deriving DecidableEq

/-- `BackupManager.create_backup`. `srcOk` tells whether the source file is
still readable when `shutil.copy2` runs; `ts` is `time.strftime` at that
moment, `user` is `getpass.getuser()`, and `srcMtime` is the source file's
modification time, which `copy2` preserves on the new backup. On failure the
exception is caught and the empty string is returned (the per-stem directory
itself has already been created by `os.makedirs`, holding its previous
files). -/
def create_backup (srcOk : Bool) (ts user : String) (filepath : String)
    (srcMtime : Int) (bm : BackupManager) : String × BackupManager :=
  let filename := basename filepath
  let name_only := (splitext filename).1
  let ext := (splitext filename).2
  let dir := (getA bm.dirs name_only).getD []
  if srcOk then
    let backup_filename := backupFilename name_only ts user ext
    let backup_path := bm.backup_dir ++ "/" ++ name_only ++ "/" ++ backup_filename
    let dir1 := fsWrite dir backup_filename srcMtime
    let dir2 := cleanup_old_backups bm.max_backups dir1
    (backup_path, { bm with dirs := setA bm.dirs name_only dir2 })
  else ("", { bm with dirs := setA bm.dirs name_only dir })

/-! ### Activity Ledger (`log_manager.py`) -/

/-- The observable content of a written `resumo_{YYYYMMDD}.txt`: the tally's
day, the total modification count, and the per-file table sorted by stem. -/
structure SummaryFile where
  day : Nat
  total : Nat
  perFile : List (String × Nat)
deriving DecidableEq

/-- The observable content of a written `log_consolidado_{YYYYMMDD}.txt`:
the tally's day, every accumulated line, and the trailing event count. -/
structure LogFile where
  day : Nat
  entries : List String
  eventCount : Nat
deriving DecidableEq

/-- The in-memory state of `LogManager`. `log_entries` pairs each stored line
with the (ghost) day it was added on; `regDays` is a ghost list holding, for
each modification currently counted in the tally, the day it was registered
on. Neither ghost component influences any operation. -/
structure LogManager where
  mod_count_per_file : List (String × Nat)
  total_modifications : Nat
  current_day : Nat
  log_entries : List (Nat × String)
  regDays : List Nat
deriving DecidableEq

/-- Files written by a ledger operation. -/
structure LMOut where
  summaries : List SummaryFile
  logs : List LogFile
deriving DecidableEq

/-- Code-point lexicographic order on character lists: the order Python's
`sorted` applies to strings. -/
def lexLe : List Char → List Char → Bool
  | [], _ => true
  | _ :: _, [] => false
  | a :: as, b :: bs => if a = b then lexLe as bs else decide (a.toNat < b.toNat)

/-- The comparison key of the summary's per-file table (`sorted(keys)`). -/
def keyLe (a b : String × Nat) : Prop := lexLe a.1.data b.1.data = true

instance : DecidableRel keyLe := fun a b => instDecidableEqBool (lexLe a.1.data b.1.data) true

/-- The per-file table as the summary renders it: rows sorted by stem (the
keys of a Python dict are distinct, so sorting the pairs by key stably equals
iterating `sorted(keys)` and reading the dict). -/
def sortedPerFile (counts : List (String × Nat)) : List (String × Nat) :=
  counts.insertionSort keyLe

/-- `LogManager.save_daily_summary`: render the tally for `current_day` and
write it; a failing write (`writeOk = false`) is caught and produces no
file. -/
def save_daily_summary (writeOk : Bool) (lm : LogManager) : Option SummaryFile :=
  if writeOk then
    some ⟨lm.current_day, lm.total_modifications, sortedPerFile lm.mod_count_per_file⟩
  else none

/-- `LogManager.save_daily_log`: return immediately (no file) when
`log_entries` is empty; otherwise write every line plus the trailing event
count; a failing write is caught and produces no file. -/
def save_daily_log (writeOk : Bool) (lm : LogManager) : Option LogFile :=
  if lm.log_entries.isEmpty then none
  else if writeOk then
    some ⟨lm.current_day, lm.log_entries.map Prod.snd, lm.log_entries.length⟩
  else none

/-- `LogManager.add_log_entry`: append a pre-formatted line to the in-memory
consolidated log (tagged with the ghost day `today`). -/
def add_log_entry (today : Nat) (entry : String) (lm : LogManager) : LogManager :=
  { lm with log_entries := lm.log_entries ++ [(today, entry)] }

/-- `LogManager.register_modification`. If `date.today()` differs from the
tally's day, first flush the summary and the consolidated log for the stored
day, then clear the counters and the log buffer and adopt the new day; in all
cases then count the event under the file's stem. -/
def register_modification (today : Nat) (sumOk logOk : Bool) (filepath : String)
    (lm : LogManager) : LogManager × LMOut :=
  let rolled :=
    if today ≠ lm.current_day then
      (({ mod_count_per_file := [], total_modifications := 0, current_day := today,
          log_entries := [], regDays := [] } : LogManager),
       (⟨(save_daily_summary sumOk lm).toList, (save_daily_log logOk lm).toList⟩ : LMOut))
    else (lm, (⟨[], []⟩ : LMOut))
  let lm1 := rolled.1
  let name_only := stemOf filepath
  ({ lm1 with total_modifications := lm1.total_modifications + 1,
              mod_count_per_file := bump lm1.mod_count_per_file name_only,
              regDays := lm1.regDays ++ [today] },
   rolled.2)

/-- `LogManager.__init__` on day `day`: empty tally for `day`, then an eager
`save_daily_summary` (whose write is assumed to succeed here, as at every
normal start-up). -/
def lmInit (day : Nat) : LogManager × LMOut :=
  let lm : LogManager := ⟨[], 0, day, [], []⟩
  (lm, ⟨(save_daily_summary true lm).toList, []⟩)

/-! ### Event Coordinator (`file_monitor.py`) -/

/-- A raw watchdog notification. -/
structure WatchedEvent where
  src_path : String
  is_directory : Bool

/-- `FileMonitor.MONITORED_EXTENSIONS`. -/
def MONITORED_EXTENSIONS : List String := [".dom", ".prj", ".xml", ".lib", ".txt"]

/-- `FileMonitor.is_monitored_file`: `filepath.lower().endswith(ext)` for some
monitored extension (case-insensitive suffix match; `Char.toLower` covers the
ASCII range these extensions live in). -/
def is_monitored_file (filepath : String) : Bool :=
  MONITORED_EXTENSIONS.any (fun ext => ext.data.isSuffixOf (filepath.data.map Char.toLower))

/-- The ambient values one call of `process_event` reads from the outside
world: the clock, the formatted timestamps, the acting user, today's date, and
the success oracles of the fallible I/O it may perform. -/
structure Env where
  now : Int
  ts1 : String
  ts2 : String
  tsB : String
  user : String
  today : Nat
  srcMtime : Int
  srcOk : Bool
  sumOk : Bool
  logOk : Bool

/-- The mutable state `process_event` acts on: the debounce table
`last_events` plus the two collaborator states. -/
structure MonitorState where
  last_events : List (String × Int)
  bm : BackupManager
  lm : LogManager
deriving DecidableEq

/-- What one call of `process_event` emitted: audit lines sent to
`logging.info`, the filepaths passed to `create_backup` and to
`register_modification`, and any files the ledger wrote. -/
structure MOut where
  audit : List String
  backupCalls : List String
  regCalls : List String
  lmOut : LMOut
deriving DecidableEq

/-- The output of a call that returned without doing anything. -/
def emptyMOut : MOut := ⟨[], [], [], ⟨[], []⟩⟩

/-- The first audit line of an accepted event:
`f"{timestamp} - {action}: {filepath} | Usuário: {user}"`. -/
def auditLine (ts1 action filepath user : String) : String :=
  ts1 ++ " - " ++ action ++ ": " ++ filepath ++ " | Usuário: " ++ user

/-- `FileMonitor.process_event`: filter by directory flag and extension,
debounce per path with a 5-second window, then log the event, buffer the line
in the ledger, and for `MODIFICADO`/`CRIADO` run a backup (logging its path on
success) and register the modification. -/
def process_event (env : Env) (ev : WatchedEvent) (action : String)
    (s : MonitorState) : MonitorState × MOut :=
  if ev.is_directory || !is_monitored_file ev.src_path then (s, emptyMOut)
  else
    let now := env.now
    let last_time := (getA s.last_events ev.src_path).getD 0
    if now - last_time < 5 then (s, emptyMOut)
    else
      let le1 := setA s.last_events ev.src_path now
      let message := auditLine env.ts1 action ev.src_path env.user
      let lm1 := add_log_entry env.today message s.lm
      if action = "MODIFICADO" ∨ action = "CRIADO" then
        let res := create_backup env.srcOk env.tsB env.user ev.src_path env.srcMtime s.bm
        let backup_path := res.1
        let withBackupMsg :=
          if backup_path.data ≠ [] then
            let backup_msg := env.ts2 ++ " - Backup criado: " ++ backup_path
            (add_log_entry env.today backup_msg lm1, [backup_msg])
          else (lm1, [])
        let reg := register_modification env.today env.sumOk env.logOk ev.src_path withBackupMsg.1
        (⟨le1, res.2, reg.1⟩, ⟨message :: withBackupMsg.2, [ev.src_path], [ev.src_path], reg.2⟩)
      else
        (⟨le1, s.bm, lm1⟩, ⟨[message], [], [], ⟨[], []⟩⟩)

/-! ### Iterated operation of the components

Folds describing repeated calls, used to state the temporal and invariant
claims. -/

/-- The effect of one successful `create_backup` call on one per-stem backup
directory: write the copy, then rotate. -/
def backupStep (maxB : Nat) (dir : List BFile) (name : String) (m : Int) : List BFile :=
  cleanup_old_backups maxB (fsWrite dir name m)

/-- N successive successful `create_backup` calls for the same source file;
each step supplies its `time.strftime` string and the source's modification
time at that moment. -/
def runCreateBackups (user filepath : String) (steps : List (String × Int))
    (bm : BackupManager) : BackupManager :=
  steps.foldl (fun b st => (create_backup true st.1 user filepath st.2 b).2) bm

/-- M successive `register_modification` calls on one calendar day, starting
from a freshly constructed ledger. -/
def runRegs (day : Nat) (paths : List String) : LogManager :=
  paths.foldl (fun lm p => (register_modification day true true p lm).1) (lmInit day).1

/-- An operation the ledger's owner can perform on it. -/
inductive LMOp where
  | reg (filepath : String)
  | addLog (entry : String)

/-- One ledger operation performed on calendar day `d`. -/
def lmStep (d : Nat) (op : LMOp) (lm : LogManager) : LogManager :=
  match op with
  | .reg filepath => (register_modification d true true filepath lm).1
  | .addLog entry => add_log_entry d entry lm

/-- A sequence of ledger operations, each tagged with the calendar day on
which it runs. -/
def runOps (start : LogManager) (ops : List (Nat × LMOp)) : LogManager :=
  ops.foldl (fun lm p => lmStep p.1 p.2 lm) start

/-- The single-day invariant claimed of the in-memory tally: every counted
modification and every buffered log line was added on the tally's current
day. -/
def oneDay (lm : LogManager) : Bool :=
  lm.regDays.all (fun x => x == lm.current_day) &&
  lm.log_entries.all (fun e => e.1 == lm.current_day)

/-! ### Helper lemmas -/

theorem getA_setA_self {α : Type} (l : List (String × α)) (k : String) (v : α) :
    getA (setA l k v) k = some v := by
  induction l with
  | nil => simp [getA, setA]
  | cons p t ih =>
    obtain ⟨a, w⟩ := p
    by_cases h : a = k <;> simp [getA, setA, h, ih]

/-- Any event inside the 5-second window of its path's recorded time is
dropped whole, whether or not it also passes the filter stage. -/
theorem process_event_reject_debounce (env : Env) (ev : WatchedEvent)
    (action : String) (s : MonitorState)
    (hdeb : env.now - ((getA s.last_events ev.src_path).getD 0) < 5) :
    process_event env ev action s = (s, emptyMOut) := by
  by_cases hd : (ev.is_directory || !is_monitored_file ev.src_path) = true
  · simp [process_event, hd]
  · simp [process_event, hd, hdeb]

/-! ### Claim theorems -/

/-- C5: an event whose `isDirectory` flag is true, or whose path misses the
case-insensitive extension filter, is rejected entirely: the state (debounce
table, backup store, ledger) is unchanged and nothing is emitted. -/
theorem filter_reject_frame (env : Env) (ev : WatchedEvent) (action : String)
    (s : MonitorState)
    (h : ev.is_directory = true ∨ is_monitored_file ev.src_path = false) :
    process_event env ev action s = (s, emptyMOut) := by
  rcases h with h | h <;> simp [process_event, h]

/-- Witness for C5: a `.log` event is rejected with no state change and no
output (spec example with monitored set lacking `.log`). -/
theorem filter_reject_frame_witness :
    process_event ⟨10, "T1", "T2", "TB", "alice", 0, 7, true, true, true⟩
      ⟨"/w/a.log", false⟩ "MODIFICADO" ⟨[], ⟨"B", 10, []⟩, (lmInit 0).1⟩ =
      (⟨[], ⟨"B", 10, []⟩, (lmInit 0).1⟩, emptyMOut) :=
  filter_reject_frame _ _ _ _ (Or.inr (by decide))

/-- C9: constructing the ledger writes a SummaryFile for the current day with
total 0 and no consolidated log file, and `save_daily_log` writes nothing at
all whenever the in-memory event log is empty. -/
theorem init_summary_and_empty_log (day : Nat) (writeOk : Bool) (lm : LogManager)
    (h : lm.log_entries = []) :
    (lmInit day).2.summaries = [⟨day, 0, []⟩] ∧
    (lmInit day).2.logs = [] ∧
    save_daily_log writeOk lm = none := by
  refine ⟨?_, rfl, ?_⟩
  · simp [lmInit, save_daily_summary, sortedPerFile]
  · simp [save_daily_log, h]

/-- Witness for C9 at day 5 with an empty ledger. -/
theorem init_summary_and_empty_log_witness :
    (lmInit 5).2.summaries = [⟨5, 0, []⟩] ∧
    (lmInit 5).2.logs = [] ∧
    save_daily_log true ⟨[], 0, 5, [], []⟩ = none :=
  init_summary_and_empty_log 5 true ⟨[], 0, 5, [], []⟩ rfl

/-- C2: a `register_modification` call on a calendar day different from the
tally's day writes exactly one SummaryFile, carrying the prior day and the
pre-event tally (and one ConsolidatedLogFile exactly when there are buffered
entries, also for the prior day), and leaves the tally holding only the new
event under the new day. -/
theorem rollover_flush_then_reset (today : Nat) (filepath : String)
    (lm : LogManager) (h : today ≠ lm.current_day) :
    (register_modification today true true filepath lm).2.summaries =
      [⟨lm.current_day, lm.total_modifications, sortedPerFile lm.mod_count_per_file⟩] ∧
    (register_modification today true true filepath lm).2.logs =
      (if lm.log_entries.isEmpty then []
       else [⟨lm.current_day, lm.log_entries.map Prod.snd, lm.log_entries.length⟩]) ∧
    (register_modification today true true filepath lm).1 =
      ⟨[(stemOf filepath, 1)], 1, today, [], [today]⟩ := by
  refine ⟨?_, ?_, ?_⟩
  · simp [register_modification, save_daily_summary, h]
  · by_cases he : lm.log_entries.isEmpty <;>
      simp [register_modification, save_daily_log, h, he]
  · simp [register_modification, h, bump, setA, getA]

/-- Witness for C2: rollover from day 0 to day 1 with one prior count and one
buffered line. -/
theorem rollover_flush_then_reset_witness :
    (register_modification 1 true true "/w/b.txt" ⟨[("a", 2)], 2, 0, [(0, "e")], [0, 0]⟩).2.summaries =
      [⟨0, 2, sortedPerFile [("a", 2)]⟩] ∧
    (register_modification 1 true true "/w/b.txt" ⟨[("a", 2)], 2, 0, [(0, "e")], [0, 0]⟩).2.logs =
      (if ([((0 : Nat), "e")] : List (Nat × String)).isEmpty then []
       else [⟨0, [(0, "e")].map Prod.snd, [((0 : Nat), "e")].length⟩]) ∧
    (register_modification 1 true true "/w/b.txt" ⟨[("a", 2)], 2, 0, [(0, "e")], [0, 0]⟩).1 =
      ⟨[(stemOf "/w/b.txt", 1)], 1, 1, [], [1]⟩ :=
  rollover_flush_then_reset 1 "/w/b.txt" ⟨[("a", 2)], 2, 0, [(0, "e")], [0, 0]⟩ (by decide)

/-- C7: when the wall-clock day has changed, the in-memory reset and the
adoption of the new day happen whether or not the summary write succeeds: the
post-state with a failing flush equals the post-state with a succeeding one,
and the failing flush writes no SummaryFile, so the prior day's counts are
dropped silently. (The failure never propagates: `register_modification` is a
total function because the code catches the exception inside
`save_daily_summary`.) -/
theorem rollover_flush_failure_resets (today : Nat) (logOk : Bool)
    (filepath : String) (lm : LogManager) (h : today ≠ lm.current_day) :
    (register_modification today false logOk filepath lm).1 =
      (register_modification today true logOk filepath lm).1 ∧
    (register_modification today false logOk filepath lm).2.summaries = [] ∧
    (register_modification today false logOk filepath lm).1 =
      ⟨[(stemOf filepath, 1)], 1, today, [], [today]⟩ := by
  refine ⟨?_, ?_, ?_⟩
  · simp [register_modification, h]
  · simp [register_modification, save_daily_summary, h]
  · simp [register_modification, h, bump, setA, getA]

/-- Witness for C7: a failing flush at the day-0 to day-1 rollover still
resets the tally and writes nothing. -/
theorem rollover_flush_failure_resets_witness :
    (register_modification 1 false true "/w/b.txt" ⟨[("a", 2)], 2, 0, [(0, "e")], [0, 0]⟩).1 =
      (register_modification 1 true true "/w/b.txt" ⟨[("a", 2)], 2, 0, [(0, "e")], [0, 0]⟩).1 ∧
    (register_modification 1 false true "/w/b.txt" ⟨[("a", 2)], 2, 0, [(0, "e")], [0, 0]⟩).2.summaries = [] ∧
    (register_modification 1 false true "/w/b.txt" ⟨[("a", 2)], 2, 0, [(0, "e")], [0, 0]⟩).1 =
      ⟨[(stemOf "/w/b.txt", 1)], 1, 1, [], [1]⟩ :=
  rollover_flush_failure_resets 1 true "/w/b.txt" ⟨[("a", 2)], 2, 0, [(0, "e")], [0, 0]⟩ (by decide)

/-- C1: with `t` recorded as the path's last-accepted time, a further event
for that path at `now` with `now - t < 5` is rejected — no state change and no
output at all — while one with `now - t ≥ 5` is accepted: an audit line is
emitted, `now` becomes the path's recorded time, and for `MODIFICADO`/`CRIADO`
the backup store and the ledger are each invoked once. -/
theorem debounce_window_spec (env : Env) (ev : WatchedEvent) (action : String)
    (s : MonitorState) (t : Int)
    (hdir : ev.is_directory = false) (hmon : is_monitored_file ev.src_path = true)
    (hlast : getA s.last_events ev.src_path = some t) :
    (env.now - t < 5 → process_event env ev action s = (s, emptyMOut)) ∧
    (5 ≤ env.now - t →
      getA (process_event env ev action s).1.last_events ev.src_path = some env.now ∧
      (process_event env ev action s).2.audit ≠ [] ∧
      ((action = "MODIFICADO" ∨ action = "CRIADO") →
        (process_event env ev action s).2.backupCalls = [ev.src_path] ∧
        (process_event env ev action s).2.regCalls = [ev.src_path])) := by
  constructor
  · intro h5
    simp [process_event, hdir, hmon, hlast, h5]
  · intro h5
    have h5' : ¬ (env.now - t < 5) := by omega
    by_cases ha : action = "MODIFICADO" ∨ action = "CRIADO" <;>
      simp [process_event, hdir, hmon, hlast, h5', ha, getA_setA_self]

/-- Witness for C1: with `/w/a.txt` last accepted at time 3, an event at time
6 is dropped whole, and an event at time 10 is accepted, re-stamps the path,
and drives one backup call and one ledger call. -/
theorem debounce_window_spec_witness :
    process_event ⟨6, "T1", "T2", "TB", "alice", 0, 7, true, true, true⟩
        ⟨"/w/a.txt", false⟩ "MODIFICADO" ⟨[("/w/a.txt", 3)], ⟨"B", 10, []⟩, (lmInit 0).1⟩ =
      (⟨[("/w/a.txt", 3)], ⟨"B", 10, []⟩, (lmInit 0).1⟩, emptyMOut) ∧
    (getA (process_event ⟨10, "T1", "T2", "TB", "alice", 0, 7, true, true, true⟩
        ⟨"/w/a.txt", false⟩ "MODIFICADO"
        ⟨[("/w/a.txt", 3)], ⟨"B", 10, []⟩, (lmInit 0).1⟩).1.last_events "/w/a.txt" = some 10 ∧
      (process_event ⟨10, "T1", "T2", "TB", "alice", 0, 7, true, true, true⟩
        ⟨"/w/a.txt", false⟩ "MODIFICADO"
        ⟨[("/w/a.txt", 3)], ⟨"B", 10, []⟩, (lmInit 0).1⟩).2.audit ≠ [] ∧
      ("MODIFICADO" = "MODIFICADO" ∨ "MODIFICADO" = "CRIADO" →
        (process_event ⟨10, "T1", "T2", "TB", "alice", 0, 7, true, true, true⟩
          ⟨"/w/a.txt", false⟩ "MODIFICADO"
          ⟨[("/w/a.txt", 3)], ⟨"B", 10, []⟩, (lmInit 0).1⟩).2.backupCalls = ["/w/a.txt"] ∧
        (process_event ⟨10, "T1", "T2", "TB", "alice", 0, 7, true, true, true⟩
          ⟨"/w/a.txt", false⟩ "MODIFICADO"
          ⟨[("/w/a.txt", 3)], ⟨"B", 10, []⟩, (lmInit 0).1⟩).2.regCalls = ["/w/a.txt"])) :=
  ⟨(debounce_window_spec ⟨6, "T1", "T2", "TB", "alice", 0, 7, true, true, true⟩
      ⟨"/w/a.txt", false⟩ "MODIFICADO" ⟨[("/w/a.txt", 3)], ⟨"B", 10, []⟩, (lmInit 0).1⟩ 3
      rfl (by decide) (by decide)).1 (by decide),
   (debounce_window_spec ⟨10, "T1", "T2", "TB", "alice", 0, 7, true, true, true⟩
      ⟨"/w/a.txt", false⟩ "MODIFICADO" ⟨[("/w/a.txt", 3)], ⟨"B", 10, []⟩, (lmInit 0).1⟩ 3
      rfl (by decide) (by decide)).2 (by decide)⟩

/-- C10: an accepted `DELETADO` event stamps the debounce table exactly like
the other kinds, so a `CRIADO` or `MODIFICADO` event for the same path less
than 5 seconds later is suppressed whole — no backup, no ledger update, no
output. -/
theorem deleted_event_debounces (env1 env2 : Env) (ev : WatchedEvent)
    (s : MonitorState)
    (hdir : ev.is_directory = false) (hmon : is_monitored_file ev.src_path = true)
    (hacc : 5 ≤ env1.now - ((getA s.last_events ev.src_path).getD 0))
    (hclose : env2.now - env1.now < 5) :
    getA (process_event env1 ev "DELETADO" s).1.last_events ev.src_path = some env1.now ∧
    process_event env2 ev "CRIADO" (process_event env1 ev "DELETADO" s).1 =
      ((process_event env1 ev "DELETADO" s).1, emptyMOut) ∧
    process_event env2 ev "MODIFICADO" (process_event env1 ev "DELETADO" s).1 =
      ((process_event env1 ev "DELETADO" s).1, emptyMOut) := by
  have h5' : ¬ (env1.now - (getA s.last_events ev.src_path).getD 0 < 5) := by omega
  have hs1 : (process_event env1 ev "DELETADO" s).1.last_events =
      setA s.last_events ev.src_path env1.now := by
    simp [process_event, hdir, hmon, h5']
  have hg : getA (process_event env1 ev "DELETADO" s).1.last_events ev.src_path =
      some env1.now := by
    rw [hs1]; exact getA_setA_self _ _ _
  refine ⟨hg, ?_, ?_⟩ <;>
  · apply process_event_reject_debounce
    rw [hg]
    simpa using hclose

/-- Witness for C10: `DELETADO` accepted at time 10 stamps the path; `CRIADO`
and `MODIFICADO` at time 12 are both dropped whole. -/
theorem deleted_event_debounces_witness :
    getA (process_event ⟨10, "T1", "T2", "TB", "alice", 0, 7, true, true, true⟩
        ⟨"/w/a.txt", false⟩ "DELETADO"
        ⟨[], ⟨"B", 10, []⟩, (lmInit 0).1⟩).1.last_events "/w/a.txt" = some 10 ∧
    process_event ⟨12, "T1", "T2", "TB", "alice", 0, 7, true, true, true⟩
        ⟨"/w/a.txt", false⟩ "CRIADO"
        (process_event ⟨10, "T1", "T2", "TB", "alice", 0, 7, true, true, true⟩
          ⟨"/w/a.txt", false⟩ "DELETADO" ⟨[], ⟨"B", 10, []⟩, (lmInit 0).1⟩).1 =
      ((process_event ⟨10, "T1", "T2", "TB", "alice", 0, 7, true, true, true⟩
          ⟨"/w/a.txt", false⟩ "DELETADO" ⟨[], ⟨"B", 10, []⟩, (lmInit 0).1⟩).1, emptyMOut) ∧
    process_event ⟨12, "T1", "T2", "TB", "alice", 0, 7, true, true, true⟩
        ⟨"/w/a.txt", false⟩ "MODIFICADO"
        (process_event ⟨10, "T1", "T2", "TB", "alice", 0, 7, true, true, true⟩
          ⟨"/w/a.txt", false⟩ "DELETADO" ⟨[], ⟨"B", 10, []⟩, (lmInit 0).1⟩).1 =
      ((process_event ⟨10, "T1", "T2", "TB", "alice", 0, 7, true, true, true⟩
          ⟨"/w/a.txt", false⟩ "DELETADO" ⟨[], ⟨"B", 10, []⟩, (lmInit 0).1⟩).1, emptyMOut) :=
  deleted_event_debounces ⟨10, "T1", "T2", "TB", "alice", 0, 7, true, true, true⟩
    ⟨12, "T1", "T2", "TB", "alice", 0, 7, true, true, true⟩ ⟨"/w/a.txt", false⟩
    ⟨[], ⟨"B", 10, []⟩, (lmInit 0).1⟩ rfl (by decide) (by decide) (by decide)

/-- C6: when the source is unreadable at copy time, `create_backup` does not
raise (it is total here because the code catches the exception) and returns
the empty backup path; the coordinator then emits no second backup-path audit
line — only the single event line — and still invokes
`register_modification` for that event. -/
theorem failed_backup_degrades (env : Env) (ev : WatchedEvent) (action : String)
    (s : MonitorState)
    (hdir : ev.is_directory = false) (hmon : is_monitored_file ev.src_path = true)
    (hdeb : ¬ (env.now - ((getA s.last_events ev.src_path).getD 0) < 5))
    (hfail : env.srcOk = false)
    (ha : action = "MODIFICADO" ∨ action = "CRIADO") :
    (create_backup env.srcOk env.tsB env.user ev.src_path env.srcMtime s.bm).1 = "" ∧
    (process_event env ev action s).2.audit =
      [auditLine env.ts1 action ev.src_path env.user] ∧
    (process_event env ev action s).2.regCalls = [ev.src_path] := by
  refine ⟨?_, ?_, ?_⟩ <;>
    simp [process_event, create_backup, hdir, hmon, hdeb, hfail, ha]

/-- Witness for C6: an accepted `MODIFICADO` event whose source vanished
before the copy gets an empty backup path, a single audit line, and still one
ledger call. -/
theorem failed_backup_degrades_witness :
    (create_backup false "TB" "alice" "/w/a.txt" 7 ⟨"B", 10, []⟩).1 = "" ∧
    (process_event ⟨10, "T1", "T2", "TB", "alice", 0, 7, false, true, true⟩
        ⟨"/w/a.txt", false⟩ "MODIFICADO"
        ⟨[], ⟨"B", 10, []⟩, (lmInit 0).1⟩).2.audit =
      [auditLine "T1" "MODIFICADO" "/w/a.txt" "alice"] ∧
    (process_event ⟨10, "T1", "T2", "TB", "alice", 0, 7, false, true, true⟩
        ⟨"/w/a.txt", false⟩ "MODIFICADO"
        ⟨[], ⟨"B", 10, []⟩, (lmInit 0).1⟩).2.regCalls = ["/w/a.txt"] :=
  failed_backup_degrades ⟨10, "T1", "T2", "TB", "alice", 0, 7, false, true, true⟩
    ⟨"/w/a.txt", false⟩ "MODIFICADO" ⟨[], ⟨"B", 10, []⟩, (lmInit 0).1⟩
    rfl (by decide) (by decide) rfl (by decide)

/-- One ledger operation keeps every counted modification on the tally's
current day. -/
theorem lmStep_regDays_current (d : Nat) (op : LMOp) (lm : LogManager)
    (h : ∀ x ∈ lm.regDays, x = lm.current_day) :
    ∀ x ∈ (lmStep d op lm).regDays, x = (lmStep d op lm).current_day := by
  cases op with
  | addLog entry => simpa [lmStep, add_log_entry] using h
  | reg filepath =>
    by_cases hd : d ≠ lm.current_day
    · simp [lmStep, register_modification, hd]
    · push_neg at hd
      subst hd
      intro x hx
      simp [lmStep, register_modification] at hx ⊢
      rcases hx with hx | hx
      · exact h x hx
      · exact hx

/-- Any sequence of ledger operations keeps every counted modification on the
tally's current day. -/
theorem runOps_regDays_current (ops : List (Nat × LMOp)) (lm : LogManager)
    (h : ∀ x ∈ lm.regDays, x = lm.current_day) :
    ∀ x ∈ (runOps lm ops).regDays, x = (runOps lm ops).current_day := by
  induction ops generalizing lm with
  | nil => simpa [runOps] using h
  | cons p t ih =>
    simpa [runOps] using
      ih (lmStep p.1 p.2 lm) (lmStep_regDays_current p.1 p.2 lm h)

/-- C8 fails as stated: two audit lines buffered on consecutive days with no
registered modification in between (for example two `DELETADO` events
straddling midnight) leave the in-memory event log holding entries from two
different calendar days. -/
theorem cross_day_log_entries_cex :
    oneDay (runOps (lmInit 0).1
      [(0, .addLog "2024-01-01 23:59:59 - DELETADO: /w/a.txt | Usuário: alice"),
       (1, .addLog "2024-01-02 00:00:04 - DELETADO: /w/a.txt | Usuário: alice")]) = false := by
  decide

/-- C8 amended: the single-day invariant holds for the counting part of the
tally — after any sequence of ledger operations, every modification counted in
`totalModifications`/`perFileCounts` was registered on the tally's current
day — but not for `eventLog`, which can accumulate entries across a day
boundary until the next `register_modification` flushes it. -/
theorem tally_single_day_amended (d : Nat) (ops : List (Nat × LMOp)) :
    ((runOps (lmInit d).1 ops).regDays.all
      (fun x => x == (runOps (lmInit d).1 ops).current_day)) = true := by
  rw [List.all_eq_true]
  intro x hx
  simpa using runOps_regDays_current ops (lmInit d).1 (by simp [lmInit]) x hx

theorem bump_nil (k : String) : bump [] k = [(k, 1)] := by
  simp [bump, setA, getA]

theorem bump_cons (a : String) (n : Nat) (t : List (String × Nat)) (k : String) :
    bump ((a, n) :: t) k = if a = k then (a, n + 1) :: t else (a, n) :: bump t k := by
  by_cases h : a = k <;> simp [bump, setA, getA, h]

/-- Incrementing a key's count adds that key to the key list exactly when it
is new, at the end. -/
theorem bump_map_fst (l : List (String × Nat)) (k : String) :
    (bump l k).map Prod.fst =
      if k ∈ l.map Prod.fst then l.map Prod.fst else l.map Prod.fst ++ [k] := by
  induction l with
  | nil => simp [bump_nil]
  | cons p t ih =>
    obtain ⟨a, n⟩ := p
    by_cases h : a = k
    · simp [bump_cons, h]
    · simp [bump_cons, h, ih, Ne.symm h]
      by_cases hm : k ∈ t.map Prod.fst <;> simp [hm, Ne.symm h]

/-- Incrementing a key's count raises the sum of all counts by one. -/
theorem bump_sum (l : List (String × Nat)) (k : String) :
    ((bump l k).map Prod.snd).sum = (l.map Prod.snd).sum + 1 := by
  induction l with
  | nil => simp [bump_nil]
  | cons p t ih =>
    obtain ⟨a, n⟩ := p
    by_cases h : a = k <;> simp [bump_cons, h, ih] <;> omega

theorem bump_nodup (l : List (String × Nat)) (k : String)
    (h : (l.map Prod.fst).Nodup) : ((bump l k).map Prod.fst).Nodup := by
  rw [bump_map_fst]
  by_cases hm : k ∈ l.map Prod.fst <;> simp [hm, List.nodup_append, h]

theorem bump_toFinset (l : List (String × Nat)) (k : String) :
    ((bump l k).map Prod.fst).toFinset = insert k (l.map Prod.fst).toFinset := by
  rw [bump_map_fst]
  by_cases hm : k ∈ l.map Prod.fst
  · simp [hm, Finset.insert_eq_self, List.mem_toFinset]
  · simp [hm]
    ext x
    simp [or_comm]

/-- A `register_modification` call on the tally's own day only increments. -/
theorem register_modification_same_day (today : Nat) (a b : Bool)
    (filepath : String) (lm : LogManager) (h : today = lm.current_day) :
    register_modification today a b filepath lm =
      ({ lm with total_modifications := lm.total_modifications + 1,
                 mod_count_per_file := bump lm.mod_count_per_file (stemOf filepath),
                 regDays := lm.regDays ++ [today] },
       ⟨[], []⟩) := by
  simp [register_modification, h]

/-- Folding same-day registrations: the running total, the count sum, key
distinctness, and the key set evolve as expected. -/
theorem foldl_reg_same_day (day : Nat) (paths : List String) (lm : LogManager)
    (h : lm.current_day = day) :
    (paths.foldl (fun lm p => (register_modification day true true p lm).1) lm).current_day = day ∧
    (paths.foldl (fun lm p => (register_modification day true true p lm).1) lm).total_modifications =
      lm.total_modifications + paths.length ∧
    ((paths.foldl (fun lm p => (register_modification day true true p lm).1) lm).mod_count_per_file.map Prod.snd).sum =
      (lm.mod_count_per_file.map Prod.snd).sum + paths.length ∧
    ((lm.mod_count_per_file.map Prod.fst).Nodup →
      ((paths.foldl (fun lm p => (register_modification day true true p lm).1) lm).mod_count_per_file.map Prod.fst).Nodup) ∧
    ((paths.foldl (fun lm p => (register_modification day true true p lm).1) lm).mod_count_per_file.map Prod.fst).toFinset =
      (lm.mod_count_per_file.map Prod.fst).toFinset ∪ (paths.map stemOf).toFinset := by
  induction paths generalizing lm with
  | nil => simp [h]
  | cons p t ih =>
    rw [List.foldl_cons, register_modification_same_day day true true p lm h.symm]
    obtain ⟨ih1, ih2, ih3, ih4, ih5⟩ := ih
      ({ lm with total_modifications := lm.total_modifications + 1,
                 mod_count_per_file := bump lm.mod_count_per_file (stemOf p),
                 regDays := lm.regDays ++ [day] }) h
    refine ⟨ih1, ?_, ?_, ?_, ?_⟩
    · rw [ih2]; simp; omega
    · rw [ih3, bump_sum]; simp; omega
    · intro hn
      exact ih4 (bump_nodup _ _ hn)
    · rw [ih5, bump_toFinset]
      simp [Finset.insert_union, Finset.union_insert]

/-- C4: M same-day `register_modification` calls over a fresh ledger yield a
total of M, a per-file table whose keys are exactly the distinct stems (K of
them), and per-stem counts summing to M. -/
theorem same_day_tally_spec (day : Nat) (paths : List String) :
    (runRegs day paths).total_modifications = paths.length ∧
    ((runRegs day paths).mod_count_per_file.map Prod.fst).Nodup ∧
    ((runRegs day paths).mod_count_per_file.map Prod.fst).length =
      (paths.map stemOf).dedup.length ∧
    ((runRegs day paths).mod_count_per_file.map Prod.snd).sum = paths.length := by
  obtain ⟨h1, h2, h3, h4, h5⟩ := foldl_reg_same_day day paths (lmInit day).1 rfl
  have hinit : (lmInit day).1 = ⟨[], 0, day, [], []⟩ := rfl
  rw [hinit] at h2 h3 h4 h5
  simp only [runRegs, hinit] at *
  refine ⟨by simpa using h2, by simpa using h4 (by simp), ?_, by simpa using h3⟩
  have hset : ((paths.foldl (fun lm p => (register_modification day true true p lm).1)
      (⟨[], 0, day, [], []⟩ : LogManager)).mod_count_per_file.map Prod.fst).toFinset =
      (paths.map stemOf).toFinset := by simpa using h5
  calc ((paths.foldl (fun lm p => (register_modification day true true p lm).1)
          (⟨[], 0, day, [], []⟩ : LogManager)).mod_count_per_file.map Prod.fst).length
      = ((paths.foldl (fun lm p => (register_modification day true true p lm).1)
          (⟨[], 0, day, [], []⟩ : LogManager)).mod_count_per_file.map Prod.fst).toFinset.card :=
        (List.toFinset_card_of_nodup (by simpa using h4 (by simp))).symm
    _ = (paths.map stemOf).toFinset.card := by rw [hset]
    _ = (paths.map stemOf).dedup.length := List.card_toFinset _

theorem contains_eq_false_of_not_mem {l : List String} {a : String} (h : a ∉ l) :
    l.contains a = false := by
  simpa using h

/-- Writing a filename not yet present appends it to the directory. -/
theorem fsWrite_fresh (dir : List BFile) (f : BFile)
    (hn : f.name ∉ dir.map BFile.name) :
    fsWrite dir f.name f.mtime = dir ++ [f] := by
  have hc : (dir.map BFile.name).contains f.name = false :=
    contains_eq_false_of_not_mem hn
  simp only [fsWrite, hc, Bool.false_eq_true, if_false]

/-- Rotating an already mtime-sorted directory just drops from the front. -/
theorem cleanup_sorted (maxB : Nat) (dir : List BFile)
    (hs : List.Sorted mtimeLe dir) :
    cleanup_old_backups maxB dir = dir.drop (dir.length - maxB) := by
  simp [cleanup_old_backups, listByMtime, List.Sorted.insertionSort_eq hs]

/-- One successful backup of a fresh, newest file: append, then drop from the
front down to the cap. -/
theorem backupStep_fresh (maxB : Nat) (dir : List BFile) (f : BFile)
    (hn : f.name ∉ dir.map BFile.name)
    (hs : List.Sorted mtimeLe (dir ++ [f])) :
    backupStep maxB dir f.name f.mtime = (dir ++ [f]).drop (dir.length + 1 - maxB) := by
  rw [backupStep, fsWrite_fresh dir f hn, cleanup_sorted maxB _ hs]
  simp

/-- Iterating `backupStep` over fresh files with nondecreasing modification
times keeps exactly the most recent `maxB` of everything ever present. -/
theorem dirRun_eq (maxB : Nat) (hmax : 0 < maxB) :
    ∀ (files acc : List BFile),
      ((acc ++ files).map BFile.name).Nodup →
      List.Pairwise mtimeLe (acc ++ files) →
      acc.length ≤ maxB →
      files.foldl (fun d f => backupStep maxB d f.name f.mtime) acc =
        (acc ++ files).drop (acc.length + files.length - maxB) := by
  intro files
  induction files with
  | nil =>
    intro acc hn hp hlen
    simp only [List.foldl_nil, List.append_nil, List.length_nil, Nat.add_zero]
    rw [Nat.sub_eq_zero_of_le hlen, List.drop_zero]
  | cons f fs ih =>
    intro acc hn hp hlen
    rw [List.foldl_cons]
    have hfname : f.name ∉ acc.map BFile.name := by
      rw [List.map_append, List.nodup_append] at hn
      intro hmem
      exact hn.2.2 hmem (by simp)
    have hsub1 : (acc ++ [f]).Sublist (acc ++ f :: fs) :=
      List.Sublist.append_left (List.Sublist.cons₂ f (List.nil_sublist fs)) acc
    have hstep : backupStep maxB acc f.name f.mtime =
        (acc ++ [f]).drop (acc.length + 1 - maxB) :=
      backupStep_fresh maxB acc f hfname (List.Pairwise.sublist hsub1 hp)
    rw [hstep]
    have hle : acc.length + 1 - maxB ≤ (acc ++ [f]).length := by
      simp only [List.length_append, List.length_singleton]
      omega
    have happ : (acc ++ [f]) ++ fs = acc ++ f :: fs := by simp
    have hsub2 : ((acc ++ [f]).drop (acc.length + 1 - maxB) ++ fs).Sublist (acc ++ f :: fs) := by
      rw [← happ]
      exact List.Sublist.append_right (List.drop_sublist _ (acc ++ [f])) fs
    have hlen1 : ((acc ++ [f]).drop (acc.length + 1 - maxB)).length =
        acc.length + 1 - (acc.length + 1 - maxB) := by
      simp [List.length_drop]
    have ihval := ih ((acc ++ [f]).drop (acc.length + 1 - maxB))
      (List.Sublist.nodup (List.Sublist.map BFile.name hsub2) hn)
      (List.Pairwise.sublist hsub2 hp)
      (by rw [hlen1]; omega)
    rw [ihval, ← List.drop_append_of_le_length hle, happ, List.drop_drop, hlen1]
    have l1 : (acc ++ [f]).length = acc.length + 1 := by simp
    have l2 : (f :: fs).length = fs.length + 1 := rfl
    congr 1
    omega

/-- The effect of one successful `create_backup` on the store: exactly the
source file's stem directory advances by one `backupStep`. -/
theorem create_backup_snd (ts user fp : String) (m : Int) (bm : BackupManager) :
    (create_backup true ts user fp m bm).2 =
      { bm with dirs := (setA bm.dirs (stemOf fp)
          (backupStep bm.max_backups ((getA bm.dirs (stemOf fp)).getD [])
            (backupFilename (stemOf fp) ts user (extOf fp)) m)) } := rfl

/-- Over a run of successful backups of one source file, the store's cap is
unchanged and the stem's directory is the fold of `backupStep`. -/
theorem runCreateBackups_stem_dir (user fp : String) (steps : List (String × Int))
    (bm : BackupManager) :
    (runCreateBackups user fp steps bm).max_backups = bm.max_backups ∧
    ((getA (runCreateBackups user fp steps bm).dirs (stemOf fp)).getD []) =
      steps.foldl
        (fun d st => backupStep bm.max_backups d (backupFilename (stemOf fp) st.1 user (extOf fp)) st.2)
        ((getA bm.dirs (stemOf fp)).getD []) := by
  induction steps generalizing bm with
  | nil => exact ⟨rfl, rfl⟩
  | cons st t ih =>
    have hcons : runCreateBackups user fp (st :: t) bm =
        runCreateBackups user fp t ((create_backup true st.1 user fp st.2 bm).2) := rfl
    rw [hcons, create_backup_snd]
    obtain ⟨ih1, ih2⟩ := ih
      { bm with dirs := (setA bm.dirs (stemOf fp)
          (backupStep bm.max_backups ((getA bm.dirs (stemOf fp)).getD [])
            (backupFilename (stemOf fp) st.1 user (extOf fp)) st.2)) }
    refine ⟨ih1, ?_⟩
    rw [ih2, List.foldl_cons, getA_setA_self]
    rfl

/-- C3: starting from an empty store with cap `maxB > 0`, after N successful
backups of one source file with pairwise-distinct backup filenames and
nondecreasing source modification times, the stem's directory holds exactly
the `min N maxB` most recently created backups, in creation order (eviction
dropped the oldest-by-mtime from the front), and its size never exceeded the
cap after any prefix of the run. -/
theorem backup_retention_spec (root user filepath : String) (maxB : Nat)
    (steps : List (String × Int)) (hmax : 0 < maxB)
    (hnames : (steps.map
      (fun st => backupFilename (stemOf filepath) st.1 user (extOf filepath))).Nodup)
    (hmono : (steps.map Prod.snd).Pairwise (fun a b : Int => a ≤ b)) :
    ((getA (runCreateBackups user filepath steps ⟨root, maxB, []⟩).dirs (stemOf filepath)).getD []) =
      (steps.map (fun st =>
        BFile.mk (backupFilename (stemOf filepath) st.1 user (extOf filepath)) st.2)).drop
        (steps.length - maxB) ∧
    ((getA (runCreateBackups user filepath steps ⟨root, maxB, []⟩).dirs (stemOf filepath)).getD []).length =
      min steps.length maxB ∧
    ∀ k, ((getA (runCreateBackups user filepath (steps.take k) ⟨root, maxB, []⟩).dirs (stemOf filepath)).getD []).length ≤ maxB := by
  have key : ∀ (ss : List (String × Int)),
      (ss.map (fun st => backupFilename (stemOf filepath) st.1 user (extOf filepath))).Nodup →
      (ss.map Prod.snd).Pairwise (fun a b : Int => a ≤ b) →
      ((getA (runCreateBackups user filepath ss ⟨root, maxB, []⟩).dirs (stemOf filepath)).getD []) =
        (ss.map (fun st =>
          BFile.mk (backupFilename (stemOf filepath) st.1 user (extOf filepath)) st.2)).drop
          (ss.length - maxB) := by
    intro ss hn hm
    obtain ⟨-, h2⟩ := runCreateBackups_stem_dir user filepath ss ⟨root, maxB, []⟩
    rw [h2]
    have hfold : ss.foldl
        (fun d st => backupStep maxB d (backupFilename (stemOf filepath) st.1 user (extOf filepath)) st.2)
        ([] : List BFile) =
        (ss.map (fun st =>
          BFile.mk (backupFilename (stemOf filepath) st.1 user (extOf filepath)) st.2)).foldl
          (fun d f => backupStep maxB d f.name f.mtime) [] := by
      rw [List.foldl_map]
    have hgd : ((getA (⟨root, maxB, []⟩ : BackupManager).dirs (stemOf filepath)).getD []) =
        ([] : List BFile) := rfl
    rw [hgd, hfold,
      dirRun_eq maxB hmax _ []
        (by simpa [List.map_map] using hn)
        (by simpa [List.pairwise_map, mtimeLe] using hm)
        (Nat.zero_le maxB)]
    simp
  refine ⟨key steps hnames hmono, ?_, ?_⟩
  · rw [key steps hnames hmono]
    simp [List.length_drop]
    omega
  · intro k
    have hn' : ((steps.take k).map
        (fun st => backupFilename (stemOf filepath) st.1 user (extOf filepath))).Nodup :=
      List.Sublist.nodup (List.Sublist.map _ (List.take_sublist k steps)) hnames
    have hm' : ((steps.take k).map Prod.snd).Pairwise (fun a b : Int => a ≤ b) :=
      List.Pairwise.sublist (List.Sublist.map _ (List.take_sublist k steps)) hmono
    rw [key (steps.take k) hn' hm']
    simp only [List.length_drop, List.length_map, List.length_take]
    omega

/-- Witness for C3: three backups of `/w/a.txt` with cap 2 and increasing
mtimes keep the last two. -/
theorem backup_retention_spec_witness :
    ((getA (runCreateBackups "u" "/w/a.txt" [("t1", 1), ("t2", 2), ("t3", 3)]
        ⟨"B", 2, []⟩).dirs (stemOf "/w/a.txt")).getD []) =
      ([("t1", (1 : Int)), ("t2", 2), ("t3", 3)].map (fun st =>
        BFile.mk (backupFilename (stemOf "/w/a.txt") st.1 "u" (extOf "/w/a.txt")) st.2)).drop
        ([("t1", (1 : Int)), ("t2", 2), ("t3", 3)].length - 2) ∧
    ((getA (runCreateBackups "u" "/w/a.txt" [("t1", 1), ("t2", 2), ("t3", 3)]
        ⟨"B", 2, []⟩).dirs (stemOf "/w/a.txt")).getD []).length =
      min [("t1", (1 : Int)), ("t2", 2), ("t3", 3)].length 2 ∧
    ((getA (runCreateBackups "u" "/w/a.txt" ([("t1", (1 : Int)), ("t2", 2), ("t3", 3)].take 2)
        ⟨"B", 2, []⟩).dirs (stemOf "/w/a.txt")).getD []).length ≤ 2 := by
  have h := backup_retention_spec "B" "u" "/w/a.txt" 2 [("t1", 1), ("t2", 2), ("t3", 3)]
    (by decide) (by decide) (by decide)
  exact ⟨h.1, h.2.1, h.2.2 2⟩

end Audit
